import Mathlib

/-!
Verification of the crypto portfolio service (`portfolio_service/main.py`)
against its natural-language specification.

The Python service is shallowly embedded: pure computations become Lean
functions over `ℚ` (Python floats are modelled as exact rationals) and `Int`
(Python ints / millisecond timestamps / second-resolution clock readings);
outbound HTTP calls become oracle arguments (a list of upstream responses
consumed one per request, or a function from request parameters to the parsed
response); the module-level mutable caches become explicit state passed in and
returned; a raised exception that the caller converts into a record becomes an
`Except` value.
-/

unseal Rat.add Rat.mul Rat.sub

deriving instance DecidableEq for Except

/-! ### Python numeric helpers -/

/-- Python `round` ties-to-even on the integer scale: `roundHalfEven x` is the
integer nearest to `x`, with exact halves going to the even neighbour. -/
def roundHalfEven (x : ℚ) : ℤ :=
  let n := x.floor
  let frac := x - n
  if frac < mkRat 1 2 then n
  else if mkRat 1 2 < frac then n + 1
  else if n % 2 = 0 then n else n + 1

/-- Python `round(x, ndigits)` on an exact rational. -/
def pyRound (x : ℚ) (ndigits : Nat) : ℚ :=
  mkRat (roundHalfEven (x * (10 : ℚ) ^ ndigits)) (10 ^ ndigits)

/-- Python truthiness of an `Optional[float]`: `None` and `0.0` are falsy. -/
def pyTruthy : Option ℚ → Bool
  | none => false
  | some p => p != 0

/-- Python `str.upper()` (the identifiers in play are ASCII): uppercase every
character. -/
def pyUpper (s : String) : String := ⟨s.data.map Char.toUpper⟩

/-- Python `str.endswith(t)`. -/
def pyEndsWith (s t : String) : Bool := t.data.isSuffixOf s.data

/-- Python `timedelta.seconds` for the difference of two second-resolution
clock readings: the seconds field of the normalized timedelta, i.e. the
elapsed time modulo 86400 with the day count discarded (`%` is Python's
nonnegative-result modulo, which is `Int.emod` for a positive modulus). -/
def tdSeconds (now ts : Int) : Int := (now - ts) % 86400

/-! ### Cache constants (module level in `main.py`) -/

def PRICE_CACHE_DURATION : Int := 60
def HISTORY_CACHE_DURATION : Int := 1800
def SYMBOL_CACHE_DURATION : Int := 86400

/-! ### Price data and the shared price cache -/

/-- Parsed body of a successful Binance `/ticker/24hr` response (the fields
`main.py` reads; a missing field raises and is modelled as `none` body). -/
structure Ticker where
  lastPrice : ℚ
  priceChangePercent : ℚ
  quoteVolume : ℚ
deriving DecidableEq

/-- Parsed per-coin entry of a CoinGecko `/simple/price` response:
`usd` is required (a missing key raises), `usd_24h_change` is read with
`.get(_, 0)`.  A body of `none` models a malformed response or a response
that does not contain the requested coin id. -/
structure GeckoCoin where
  usd : ℚ
  usd_24h_change : Option ℚ
deriving DecidableEq

/-- The `result` dict built by the price fetchers. -/
structure PriceData where
  price_usd : ℚ
  change_24h : ℚ
  volume_24h : ℚ
  source : String
  symbol : String
deriving DecidableEq

/-- One entry of the module-level `price_cache` dict. -/
structure CacheEntry where
  data : PriceData
  timestamp : Int
deriving DecidableEq

/-- The module-level `price_cache` dict, as a map from key to entry. -/
def CacheMap : Type := String → Option CacheEntry

/-- Python dict assignment `cache[k] = v`. -/
def cacheUpd (cache : CacheMap) (k : String) (v : CacheEntry) : CacheMap :=
  fun k2 => if k2 == k then some v else cache k2

def emptyCache : CacheMap := fun _ => none

/-- `is_binance_symbol` (`main.py` lines 59-61): a coin id is classified as a
Binance trading pair iff its uppercase form ends in `USDT` or `BUSD`. -/
def is_binance_symbol (coin_id : String) : Bool :=
  pyEndsWith (pyUpper coin_id) "USDT" || pyEndsWith (pyUpper coin_id) "BUSD"

/-- `get_binance_price` (`main.py` lines 63-103).  The upstream is modelled by
`responses`, the stream of `(status, parsed body)` the Binance ticker endpoint
would return to successive requests; the function issues at most one request,
consuming the head (an empty stream models a network failure, which the
`except` swallows into `None`).  Returns the result, the updated cache, and
the number of upstream requests issued. -/
def get_binance_price (cache : CacheMap) (now : Int)
    (responses : List (Int × Option Ticker)) (symbol0 : String) :
    Option PriceData × CacheMap × Nat :=
  let symbol := pyUpper symbol0
  let cache_key := "binance_price_" ++ symbol
  let fetchPath : Option PriceData × CacheMap × Nat :=
    match responses with
    | [] => (none, cache, 1)
    | (status, body) :: _ =>
      if status != 200 then (none, cache, 1)
      else
        match body with
        | none => (none, cache, 1)
        | some t =>
          let result : PriceData :=
            { price_usd := t.lastPrice
              change_24h := t.priceChangePercent
              volume_24h := t.quoteVolume
              source := "binance"
              symbol := symbol }
          (some result, cacheUpd cache cache_key { data := result, timestamp := now }, 1)
  match cache cache_key with
  | some cached_data =>
    if tdSeconds now cached_data.timestamp < PRICE_CACHE_DURATION then
      (some cached_data.data, cache, 0)
    else fetchPath
  | none => fetchPath

/-- `get_coingecko_price` (`main.py` lines 105-154), modelled like
`get_binance_price`; its cache TTL is the literal `300` and its cache key uses
the coin id verbatim. -/
def get_coingecko_price (cache : CacheMap) (now : Int)
    (responses : List (Int × Option GeckoCoin)) (coin_id : String) :
    Option PriceData × CacheMap × Nat :=
  let cache_key := "gecko_price_" ++ coin_id
  let fetchPath : Option PriceData × CacheMap × Nat :=
    match responses with
    | [] => (none, cache, 1)
    | (status, body) :: _ =>
      if status != 200 then (none, cache, 1)
      else
        match body with
        | none => (none, cache, 1)
        | some coin =>
          let result : PriceData :=
            { price_usd := coin.usd
              change_24h := coin.usd_24h_change.getD 0
              volume_24h := 0
              source := "coingecko"
              symbol := coin_id }
          (some result, cacheUpd cache cache_key { data := result, timestamp := now }, 1)
  match cache cache_key with
  | some cached_data =>
    if tdSeconds now cached_data.timestamp < 300 then
      (some cached_data.data, cache, 0)
    else fetchPath
  | none => fetchPath

/-- The 404 message raised by `get_crypto_price_smart` when both sources fail. -/
def priceUnavailableMsg (coin_id : String) : String :=
  "Could not fetch price for " ++ coin_id ++ " from any source"

/-- `get_crypto_price_smart` (`main.py` lines 156-171): try Binance when the
id looks like a Binance pair, fall back to CoinGecko, raise `HTTPException`
(modelled as `.error (404, msg)`) when both fail.  The two trailing booleans
record which adapters were invoked (Binance, CoinGecko). -/
def get_crypto_price_smart (cache : CacheMap) (now : Int)
    (brs : List (Int × Option Ticker)) (grs : List (Int × Option GeckoCoin))
    (coin_id : String) :
    Except (Int × String) PriceData × CacheMap × Bool × Bool :=
  if is_binance_symbol coin_id then
    match get_binance_price cache now brs (pyUpper coin_id) with
    | (some price_data, cache2, _) => (.ok price_data, cache2, true, false)
    | (none, cache2, _) =>
      match get_coingecko_price cache2 now grs coin_id with
      | (some price_data, cache3, _) => (.ok price_data, cache3, true, true)
      | (none, cache3, _) => (.error (404, priceUnavailableMsg coin_id), cache3, true, true)
  else
    match get_coingecko_price cache now grs coin_id with
    | (some price_data, cache2, _) => (.ok price_data, cache2, false, true)
    | (none, cache2, _) => (.error (404, priceUnavailableMsg coin_id), cache2, false, true)

/-! ### `/binance/symbols` and its 24-hour cache -/

/-- One entry of the Binance `exchangeInfo` symbol list (fields read). -/
structure SymbolInfo where
  symbol : String
  baseAsset : String
  quoteAsset : String
  status : String
deriving DecidableEq

/-- The `result` dict cached by `get_binance_symbols`. -/
structure SymbolsPayload where
  count : Nat
  symbols : List SymbolInfo
deriving DecidableEq

/-- `get_binance_symbols` (`main.py` lines 469-510).  The single cache slot
`symbol_info_cache["binance_symbols"]` is the first argument; `resp` is the
parsed `exchangeInfo` body (`none` models a network/parse failure, raised as
a 503).  Returns the result, the updated cache slot, and the number of
upstream requests issued. -/
def get_binance_symbols (cache : Option (SymbolsPayload × Int)) (now : Int)
    (resp : Option (List SymbolInfo)) :
    Except (Int × String) SymbolsPayload × Option (SymbolsPayload × Int) × Nat :=
  let fetchPath : Except (Int × String) SymbolsPayload × Option (SymbolsPayload × Int) × Nat :=
    match resp with
    | none => (.error (503, "Failed to fetch Binance symbols"), cache, 1)
    | some syms =>
      let usdt_symbols := syms.filter (fun s => s.quoteAsset == "USDT" && s.status == "TRADING")
      let result : SymbolsPayload := { count := usdt_symbols.length, symbols := usdt_symbols }
      (.ok result, some (result, now), 1)
  match cache with
  | some cached =>
    if tdSeconds now cached.2 < SYMBOL_CACHE_DURATION then (.ok cached.1, cache, 0)
    else fetchPath
  | none => fetchPath

/-! ### Valuation (`/portfolio/calculate`) -/

/-- The `Asset` pydantic model (`main.py` lines 44-50).  `purchase_date` is a
millisecond timestamp (the code converts the datetime with
`int(dt.timestamp() * 1000)`). -/
structure Asset where
  symbol : String
  coin_id : String
  amount : ℚ
  purchase_price : Option ℚ := none
  purchase_date : Option Int := none
  notes : Option String := none
deriving DecidableEq

/-- One element of `enriched_assets`.  The Python dicts come in two shapes
(an error record and a full record); keys absent from a shape are `none`. -/
structure EnrichedAsset where
  symbol : String
  coin_id : String
  amount : ℚ
  error : Option String
  current_price : Option ℚ
  current_value : Option ℚ
  purchase_price : Option ℚ
  cost : Option ℚ
  pnl : Option ℚ
  pnl_percent : Option ℚ
  change_24h : Option ℚ
  source : Option String
  notes : Option String
deriving DecidableEq

/-- The `PortfolioSummary` pydantic model (`main.py` lines 52-57). -/
structure PortfolioSummary where
  total_value_usd : ℚ
  total_cost : ℚ
  total_pnl : ℚ
  total_pnl_percent : ℚ
  assets : List EnrichedAsset
deriving DecidableEq

/-- The dict appended to `enriched_assets` for one asset and its gathered
price outcome (`main.py` lines 210-218 for the exception shape, 235-248 for
the success shape). -/
def enrichedOf : Asset × Except (Int × String) PriceData → EnrichedAsset
  | (asset, .error e) =>
    { symbol := pyUpper asset.symbol
      coin_id := asset.coin_id
      amount := asset.amount
      error := some ("Price unavailable: " ++ e.2)
      current_price := none
      current_value := none
      purchase_price := none
      cost := none
      pnl := none
      pnl_percent := none
      change_24h := none
      source := none
      notes := none }
  | (asset, .ok price_data) =>
    let current_price := price_data.price_usd
    let current_value := asset.amount * current_price
    let cost :=
      if pyTruthy asset.purchase_price then asset.amount * asset.purchase_price.getD 0 else 0
    let pnl := if pyTruthy asset.purchase_price then current_value - cost else 0
    let pnl_percent :=
      if pyTruthy asset.purchase_price then (if cost > 0 then pnl / cost * 100 else 0) else 0
    { symbol := pyUpper asset.symbol
      coin_id := asset.coin_id
      amount := asset.amount
      error := none
      current_price := some (pyRound current_price 6)
      current_value := some (pyRound current_value 2)
      purchase_price := asset.purchase_price
      cost := if pyTruthy asset.purchase_price then some (pyRound cost 2) else none
      pnl := if pyTruthy asset.purchase_price then some (pyRound pnl 2) else none
      pnl_percent := if pyTruthy asset.purchase_price then some (pyRound pnl_percent 2) else none
      change_24h := some (pyRound price_data.change_24h 2)
      source := some price_data.source
      notes := asset.notes }

/-- Body of the `for i, asset in enumerate(assets)` loop (`main.py` lines
207-248), threading `(total_value, total_cost, enriched_assets)`. -/
def portfolioStep (acc : ℚ × ℚ × List EnrichedAsset)
    (p : Asset × Except (Int × String) PriceData) : ℚ × ℚ × List EnrichedAsset :=
  match p with
  | (asset, .error e) => (acc.1, acc.2.1, acc.2.2 ++ [enrichedOf (asset, .error e)])
  | (asset, .ok price_data) =>
    let current_value := asset.amount * price_data.price_usd
    let total_cost :=
      if pyTruthy asset.purchase_price then acc.2.1 + asset.amount * asset.purchase_price.getD 0
      else acc.2.1
    (acc.1 + current_value, total_cost, acc.2.2 ++ [enrichedOf (asset, .ok price_data)])

/-- `calculate_portfolio` (`main.py` lines 187-261) given the outcomes of the
concurrent `asyncio.gather` over `get_crypto_price_smart` (one `Except` per
asset; an exception captured by `return_exceptions=True` is `.error`). -/
def calculate_portfolio (assets : List Asset)
    (price_results : List (Except (Int × String) PriceData)) : PortfolioSummary :=
  if assets.isEmpty then
    { total_value_usd := 0, total_cost := 0, total_pnl := 0, total_pnl_percent := 0, assets := [] }
  else
    let r := (assets.zip price_results).foldl portfolioStep (0, 0, [])
    let total_value := r.1
    let total_cost := r.2.1
    let total_pnl := if total_cost > 0 then total_value - total_cost else 0
    let total_pnl_percent := if total_cost > 0 then total_pnl / total_cost * 100 else 0
    { total_value_usd := pyRound total_value 2
      total_cost := pyRound total_cost 2
      total_pnl := pyRound total_pnl 2
      total_pnl_percent := pyRound total_pnl_percent 2
      assets := r.2.2 }

/-- Spec-side: the current value one asset/outcome pair contributes to
`total_value` (a failed price contributes nothing). -/
def valueContrib : Asset × Except (Int × String) PriceData → ℚ
  | (asset, .ok price_data) => asset.amount * price_data.price_usd
  | (_, .error _) => 0

/-- Spec-side: the cost one asset/outcome pair contributes to `total_cost`
(only holdings with a truthy purchase price and a resolved price). -/
def costContrib : Asset × Except (Int × String) PriceData → ℚ
  | (asset, .ok _) =>
    if pyTruthy asset.purchase_price then asset.amount * asset.purchase_price.getD 0 else 0
  | (_, .error _) => 0

/-- Modelled from the claim wording (for refutation): the P&L a pair would
contribute to `total_pnl` if the aggregate accumulated only over holdings
with both a purchase price and a resolved current price. -/
def claimPnlContrib : Asset × Except (Int × String) PriceData → ℚ
  | (asset, .ok price_data) =>
    match asset.purchase_price with
    | some pp => asset.amount * price_data.price_usd - asset.amount * pp
    | none => 0
  | (_, .error _) => 0

/-! ### Historical reconstruction (`/portfolio/history`) -/

/-- A `[timestamp_ms, price]` point as produced by both history fetchers. -/
abbrev PricePt := Int × ℚ

/-- The dict returned by `fetch_coin_history_smart` on success
(`main.py` lines 341-358). -/
structure AssetHist where
  coin_id : String
  symbol : String
  amount : ℚ
  prices : List PricePt
  source : String
deriving DecidableEq

/-- Comparison used to sort price points by timestamp
(`sorted(a[..], key=lambda x: x[0])`; `List.insertionSort` is stable, matching
Python `sorted`). -/
def ptLe (x y : PricePt) : Prop := x.1 ≤ y.1

instance : DecidableRel ptLe := fun x y => inferInstanceAs (Decidable (x.1 ≤ y.1))

instance : IsTotal PricePt ptLe := ⟨fun x y => Int.le_total x.1 y.1⟩

instance : IsTrans PricePt ptLe := ⟨fun _ _ _ h1 h2 => le_trans h1 h2⟩

/-- `fetch_coin_history_smart` (`main.py` lines 334-360).  The two history
endpoints are oracles from `(identifier, days)` to the converted price-point
list (`none` models a non-200 or an exception); `fetch_binance_history` sends
the uppercased symbol.  An empty returned list is falsy in Python, so it falls
through exactly like a failure. -/
def fetch_coin_history_smart (bh gh : String → Int → Option (List PricePt))
    (days : Int) (asset : Asset) : Option AssetHist :=
  let viaGecko : Option AssetHist :=
    match gh asset.coin_id days with
    | some prices =>
      if prices.isEmpty then none
      else some { coin_id := asset.coin_id, symbol := asset.symbol, amount := asset.amount,
                  prices := prices, source := "coingecko" }
    | none => none
  if is_binance_symbol asset.coin_id then
    match bh (pyUpper asset.coin_id) days with
    | some prices =>
      if prices.isEmpty then viaGecko
      else some { coin_id := asset.coin_id, symbol := asset.symbol, amount := asset.amount,
                  prices := prices, source := "binance" }
    | none => viaGecko
  else viaGecko

/-- `results = await asyncio.gather(*tasks)` (`main.py` lines 375-376). -/
def historyResultsOf (bh gh : String → Int → Option (List PricePt))
    (days : Int) (assets : List Asset) : List (Option AssetHist) :=
  assets.map (fetch_coin_history_smart bh gh days)

/-- `history_data = [r for r in results if r and r['prices']]`
(`main.py` line 377). -/
def historyDataOf (bh gh : String → Int → Option (List PricePt))
    (days : Int) (assets : List Asset) : List AssetHist :=
  ((historyResultsOf bh gh days assets).filterMap id).filter (fun r => !r.prices.isEmpty)

/-- Python dict assignment for the purchase-time map. -/
def intUpd (m : String → Option Int) (k : String) (v : Int) : String → Option Int :=
  fun k2 => if k2 == k then some v else m k2

/-- One step of the `asset_purchase_times` construction (`main.py` lines
390-401): an asset whose fetch succeeded with a nonempty series records its
purchase timestamp (or `0`, "beginning of time", when it has none). -/
def purchaseStep (m : String → Option Int) (p : Asset × Option AssetHist) :
    String → Option Int :=
  match p.2 with
  | some r =>
    if r.prices.isEmpty then m
    else intUpd m r.coin_id (match p.1.purchase_date with | some d => d | none => 0)
  | none => m

/-- The `asset_purchase_times` dict (`main.py` lines 387-401) together with
the `.get(aid, 0)` default used at line 436: a dated asset maps to its
purchase timestamp, an undated one to `0` ("beginning of time"). -/
def buildPurchaseTimes (assets : List Asset) (results : List (Option AssetHist)) :
    String → Int :=
  fun aid => (((assets.zip results).foldl purchaseStep (fun _ => none)) aid).getD 0

/-- `assets_without_dates` (`main.py` lines 388-401). -/
def assetsWithoutDates (assets : List Asset) (results : List (Option AssetHist)) :
    List String :=
  ((assets.zip results).filter
    (fun p =>
      (match p.2 with | some r => !r.prices.isEmpty | none => false)
        && p.1.purchase_date.isNone)).map (fun p => p.1.symbol)

/-- `sorted_timestamps = sorted(list(set(...)))` (`main.py` lines 407-415):
the union of all sampling timestamps, deduplicated and sorted ascending. -/
def historyTimeline (hd : List AssetHist) : List Int :=
  List.insertionSort (fun a b : Int => a ≤ b)
    ((hd.map (fun a => a.prices.map (fun q => q.1))).flatten.dedup)

/-- The `while current_points[aid] and current_points[aid][0] <= ts` loop
(`main.py` lines 442-444): consume price points up to `ts`, remembering the
last consumed price.  Returns the new `(latest_prices[aid],
remaining points)`. -/
def advance (ts : Int) : List PricePt → Option ℚ → Option ℚ × List PricePt
  | [], latest => (latest, [])
  | (t, p) :: rest, latest =>
    if t ≤ ts then advance ts rest (some p) else (latest, (t, p) :: rest)

/-- Per-asset loop state: `latest_prices[aid]` and the not-yet-consumed tail
of the sorted price list (`asset_iters[aid]` / `current_points[aid]`). -/
abbrev Slot := Option ℚ × List PricePt

/-- The three per-asset dicts of `main.py` lines 420-427, merged into one map
(they share the key set `{a['coin_id'] for a in history_data}`). -/
def PState : Type := String → Slot

/-- Python dict assignment on the merged per-asset state. -/
def slotUpd (st : PState) (k : String) (v : Slot) : PState :=
  fun k2 => if k2 == k then v else st k2

/-- Initial per-asset state (`main.py` lines 420-427): no price seen yet, all
points of the timestamp-sorted price list pending. -/
def initPState (hd : List AssetHist) : PState :=
  hd.foldl (fun st a => slotUpd st a.coin_id (none, List.insertionSort ptLe a.prices))
    (fun _ => (none, []))

/-- Body of the inner `for asset_hist in history_data` loop
(`main.py` lines 432-448), threading the per-asset state and `total_value`. -/
def histInnerStep (purchase : String → Int) (ts : Int) (acc : PState × ℚ)
    (a : AssetHist) : PState × ℚ :=
  if ts < purchase a.coin_id then acc
  else
    let s := acc.1 a.coin_id
    let s2 := advance ts s.2 s.1
    let st2 := slotUpd acc.1 a.coin_id s2
    match s2.1 with
    | some p => (st2, acc.2 + p * a.amount)
    | none => (st2, acc.2)

/-- Body of the outer `for ts in sorted_timestamps` loop
(`main.py` lines 429-455): aggregate the timestamp's total and append a
history point when it exceeds `0.01`. -/
def histOuterStep (purchase : String → Int) (hd : List AssetHist)
    (acc : PState × List (Int × ℚ)) (ts : Int) : PState × List (Int × ℚ) :=
  let inner := hd.foldl (histInnerStep purchase ts) (acc.1, 0)
  if inner.2 > mkRat 1 100 then (inner.1, acc.2 ++ [(ts, pyRound inner.2 2)])
  else (inner.1, acc.2)

/-- The four return shapes of `get_portfolio_history` (`main.py` lines
368-369, 379-384, 413, 457-463); an `ok` history point is `(timestamp,
rounded value)` (the derived ISO date string is omitted). -/
inductive HistoryResult where
  | noAssets
  | noData (days : Int)
  | noPoints (days : Int)
  | ok (history : List (Int × ℚ)) (days : Int) (sources : List String)
      (assets_without_purchase_date : List String)
deriving DecidableEq

/-- `get_portfolio_history` (`main.py` lines 362-467).  Python's
`list(set(..))` of the sources is modelled as first-occurrence `dedup`. -/
def get_portfolio_history (bh gh : String → Int → Option (List PricePt))
    (assets : List Asset) (days : Int) : HistoryResult :=
  if assets.isEmpty then .noAssets
  else
    let results := historyResultsOf bh gh days assets
    let history_data := historyDataOf bh gh days assets
    if history_data.isEmpty then .noData days
    else
      let purchase := buildPurchaseTimes assets results
      let all_timestamps := (history_data.map (fun a => a.prices.map (fun q => q.1))).flatten.dedup
      if all_timestamps.isEmpty then .noPoints days
      else
        let sorted_timestamps := historyTimeline history_data
        let final := sorted_timestamps.foldl (histOuterStep purchase history_data)
          (initPState history_data, [])
        .ok final.2 days ((history_data.map (fun a => a.source)).dedup)
          (assetsWithoutDates assets results)

/-! ### Spec-side history definitions -/

/-- Spec-side: the latest known price at or before `ts` in a price list
(forward-fill source value). -/
def lastPriceAtOrBefore (ts : Int) (ps : List PricePt) : Option ℚ :=
  ((ps.filter (fun q => q.1 ≤ ts)).getLast?).map (fun q => q.2)

/-- Spec-side: the value a holding contributes at `ts` ignoring ownership:
quantity times the forward-filled price, zero when no price has been observed
yet. -/
def ffValue (ts : Int) (a : AssetHist) : ℚ :=
  match lastPriceAtOrBefore ts (List.insertionSort ptLe a.prices) with
  | some p => p * a.amount
  | none => 0

/-- Spec-side: the value a holding contributes at `ts` honouring the
purchase-date cutoff. -/
def ffContrib (purchase : String → Int) (ts : Int) (a : AssetHist) : ℚ :=
  if ts < purchase a.coin_id then 0 else ffValue ts a

/-- Spec-side: the point emitted for one timeline timestamp — the sum of the
per-holding forward-filled contributions, kept when it exceeds `0.01`. -/
def specPoint (purchase : String → Int) (hd : List AssetHist) (ts : Int) : Option (Int × ℚ) :=
  let tot := (hd.map (ffContrib purchase ts)).sum
  if tot > mkRat 1 100 then some (ts, pyRound tot 2) else none

/-- Spec-side: the reconstructed history — for every timeline timestamp, sum
the per-holding forward-filled contributions and emit a point when the total
exceeds `0.01`. -/
def specHistoryPoints (purchase : String → Int) (hd : List AssetHist) : List (Int × ℚ) :=
  (historyTimeline hd).filterMap (specPoint purchase hd)

/-- Whether a holding's history fetch succeeded with a nonempty series
(the condition `r and r['prices']` of `main.py` line 377). -/
def histFetchOK (bh gh : String → Int → Option (List PricePt)) (days : Int)
    (asset : Asset) : Bool :=
  match fetch_coin_history_smart bh gh days asset with
  | some r => !r.prices.isEmpty
  | none => false

/-! ### Valuation lemmas -/

theorem portfolio_foldl_eq (z : List (Asset × Except (Int × String) PriceData)) :
    ∀ (v c : ℚ) (e : List EnrichedAsset),
      z.foldl portfolioStep (v, c, e) =
        (v + (z.map valueContrib).sum, c + (z.map costContrib).sum, e ++ z.map enrichedOf) := by
  induction z with
  | nil => intro v c e; simp
  | cons p t ih =>
    intro v c e
    obtain ⟨asset, pr⟩ := p
    cases pr with
    | error err =>
      simp only [List.foldl_cons, portfolioStep, ih, List.map_cons, List.sum_cons,
        valueContrib, costContrib, Prod.mk.injEq]
      refine ⟨by ring, by ring, by simp⟩
    | ok pd =>
      simp only [List.foldl_cons, portfolioStep, ih, List.map_cons, List.sum_cons,
        valueContrib, costContrib, Prod.mk.injEq]
      refine ⟨by ring, ?_, by simp⟩
      by_cases h : pyTruthy asset.purchase_price
      · simp [h]; ring
      · simp [h]

/-- Closed form of `calculate_portfolio`: the totals are sums of per-pair
contributions and the enriched records are a `map` over the zipped input. -/
theorem calculate_portfolio_eq (assets : List Asset)
    (prs : List (Except (Int × String) PriceData)) :
    calculate_portfolio assets prs =
      { total_value_usd := pyRound ((assets.zip prs).map valueContrib).sum 2
        total_cost := pyRound ((assets.zip prs).map costContrib).sum 2
        total_pnl := pyRound
          (if ((assets.zip prs).map costContrib).sum > 0 then
            ((assets.zip prs).map valueContrib).sum - ((assets.zip prs).map costContrib).sum
          else 0) 2
        total_pnl_percent := pyRound
          (if ((assets.zip prs).map costContrib).sum > 0 then
            (((assets.zip prs).map valueContrib).sum - ((assets.zip prs).map costContrib).sum)
              / ((assets.zip prs).map costContrib).sum * 100
          else 0) 2
        assets := (assets.zip prs).map enrichedOf } := by
  by_cases h : assets.isEmpty
  · have hz : assets.zip prs = [] := by
      cases assets with
      | nil => simp
      | cons a t => simp at h
    simp only [calculate_portfolio, h, if_pos, hz, List.map_nil, List.sum_nil]
    have h0 : pyRound 0 2 = 0 := by decide
    have h1 : pyRound (if (0:ℚ) > 0 then (0:ℚ) - 0 else 0) 2 = 0 := by decide
    have h2 : pyRound (if (0:ℚ) > 0 then ((0:ℚ) - 0) / 0 * 100 else 0) 2 = 0 := by decide
    simp [h0, h1, h2]
  · rw [calculate_portfolio, if_neg (by simp [h])]
    rw [portfolio_foldl_eq]
    by_cases hc : (0:ℚ) < (List.map costContrib (assets.zip prs)).sum
    · simp [hc]
    · simp [hc]



/-! ### Claims C2, C8, C10 (valuation) -/

/-- Claim C2, counterexample inputs: holding A has a purchase price, holding B
has a resolved price but no purchase price. -/
def c2assetA : Asset := { symbol := "AAA", coin_id := "AAAUSDT", amount := 1, purchase_price := some 10 }

def c2assetB : Asset := { symbol := "BBB", coin_id := "BBBUSDT", amount := 1 }

def c2priceA : PriceData :=
  { price_usd := 10, change_24h := 0, volume_24h := 0, source := "binance", symbol := "AAAUSDT" }

def c2priceB : PriceData :=
  { price_usd := 5, change_24h := 0, volume_24h := 0, source := "binance", symbol := "BBBUSDT" }

/-- Claim C2 is false on the code: with holding A (quantity 1, purchase price
10, current price 10, so per-asset P&L 0) and holding B (quantity 1, current
price 5, no purchase price), the aggregate `total_pnl` is 5 — holding B's
current value leaks into it — while a P&L accumulated only over holdings with
both a purchase price and a resolved price would be 0. -/
theorem c2_total_pnl_counterexample :
    (calculate_portfolio [c2assetA, c2assetB] [.ok c2priceA, .ok c2priceB]).total_pnl = 5
    ∧ pyRound (([(c2assetA, Except.ok c2priceA),
        (c2assetB, Except.ok c2priceB)].map claimPnlContrib)).sum 2 = 0
    ∧ ((calculate_portfolio [c2assetA, c2assetB] [.ok c2priceA, .ok c2priceB]).assets.map
        (fun r => r.pnl)) = [some 0, none]
    ∧ (5 : ℚ) ≠ 0 := by
  refine ⟨by decide, by decide, by decide, by decide⟩

/-- Claim C2 as amended: `total_cost` accumulates only over holdings with a
truthy purchase price and a resolved current price, but `total_pnl` is
`total_value − total_cost` (when `total_cost > 0`, else 0), where
`total_value` also includes the current value of holdings without a purchase
price. -/
theorem c2_totals_amended (assets : List Asset)
    (prs : List (Except (Int × String) PriceData)) :
    (calculate_portfolio assets prs).total_cost
        = pyRound ((assets.zip prs).map costContrib).sum 2
    ∧ (calculate_portfolio assets prs).total_pnl
        = pyRound
            (if ((assets.zip prs).map costContrib).sum > 0 then
              ((assets.zip prs).map valueContrib).sum - ((assets.zip prs).map costContrib).sum
            else 0) 2 := by
  rw [calculate_portfolio_eq]
  exact ⟨rfl, rfl⟩

/-- Claim C8: for a holding with a resolved price and a (truthy) purchase
price and a positive cost basis, the enriched record carries
`current_value = round2(quantity × price)`, `cost = round2(quantity ×
purchase_price)`, `pnl = round2(quantity × price − cost)` and
`pnl_percent = round2(pnl / cost × 100)`. -/
theorem c8_valuation_formulas (assets : List Asset)
    (prs : List (Except (Int × String) PriceData)) (i : Nat) (asset : Asset) (pd : PriceData)
    (hi : (assets.zip prs)[i]? = some (asset, .ok pd))
    (hpp : pyTruthy asset.purchase_price = true)
    (hcost : 0 < asset.amount * asset.purchase_price.getD 0) :
    ∃ r : EnrichedAsset,
      (calculate_portfolio assets prs).assets[i]? = some r
      ∧ r.current_value = some (pyRound (asset.amount * pd.price_usd) 2)
      ∧ r.cost = some (pyRound (asset.amount * asset.purchase_price.getD 0) 2)
      ∧ r.pnl = some (pyRound
          (asset.amount * pd.price_usd - asset.amount * asset.purchase_price.getD 0) 2)
      ∧ r.pnl_percent = some (pyRound
          ((asset.amount * pd.price_usd - asset.amount * asset.purchase_price.getD 0)
            / (asset.amount * asset.purchase_price.getD 0) * 100) 2) := by
  refine ⟨enrichedOf (asset, .ok pd), ?_, ?_, ?_, ?_, ?_⟩
  · rw [calculate_portfolio_eq]
    simp [List.getElem?_map, hi]
  · simp [enrichedOf]
  · simp [enrichedOf, hpp]
  · simp [enrichedOf, hpp]
  · simp [enrichedOf, hpp, hcost]

/-- Claim C8 concrete inputs: quantity 0.5, purchase price 20000, resolved
current price 30000. -/
def c8asset : Asset :=
  { symbol := "BTC", coin_id := "BTCUSDT", amount := mkRat 1 2, purchase_price := some 20000 }

def c8price : PriceData :=
  { price_usd := 30000, change_24h := 2, volume_24h := 5, source := "binance", symbol := "BTCUSDT" }

/-- Claim C8 witness: the concrete scenario of the claim evaluates to
current_value 15000.00, cost 10000.00, pnl 5000.00, pnl_percent 50.00. -/
theorem c8_valuation_formulas_witness :
    ∃ r : EnrichedAsset,
      (calculate_portfolio [c8asset] [.ok c8price]).assets[0]? = some r
      ∧ r.current_value = some 15000 ∧ r.cost = some 10000 ∧ r.pnl = some 5000
      ∧ r.pnl_percent = some 50 := by
  obtain ⟨r, h1, h2, h3, h4, h5⟩ :=
    c8_valuation_formulas [c8asset] [.ok c8price] 0 c8asset c8price (by decide) (by decide)
      (by decide)
  refine ⟨r, h1, ?_, ?_, ?_, ?_⟩
  · rw [h2]; decide
  · rw [h3]; decide
  · rw [h4]; decide
  · rw [h5]; with_unfolding_all decide

/-- Claim C10: a holding whose purchase unit price is exactly 0 is treated as
having no purchase price: its `cost`, `pnl` and `pnl_percent` are null, it
contributes nothing to `total_cost`, and its current value still contributes
to `total_value`. -/
theorem c10_zero_purchase_price (assets : List Asset)
    (prs : List (Except (Int × String) PriceData)) (i : Nat) (asset : Asset) (pd : PriceData)
    (hi : (assets.zip prs)[i]? = some (asset, .ok pd))
    (hpp : asset.purchase_price = some 0) :
    ∃ r : EnrichedAsset,
      (calculate_portfolio assets prs).assets[i]? = some r
      ∧ r.cost = none ∧ r.pnl = none ∧ r.pnl_percent = none
      ∧ r.current_value = some (pyRound (asset.amount * pd.price_usd) 2)
      ∧ costContrib (asset, .ok pd) = 0
      ∧ valueContrib (asset, .ok pd) = asset.amount * pd.price_usd
      ∧ (calculate_portfolio assets prs).total_cost
          = pyRound ((assets.zip prs).map costContrib).sum 2
      ∧ (calculate_portfolio assets prs).total_value_usd
          = pyRound ((assets.zip prs).map valueContrib).sum 2 := by
  have hfalse : pyTruthy asset.purchase_price = false := by rw [hpp]; decide
  refine ⟨enrichedOf (asset, .ok pd), ?_, ?_, ?_, ?_, ?_, ?_, ?_, ?_, ?_⟩
  · rw [calculate_portfolio_eq]
    simp [List.getElem?_map, hi]
  · simp [enrichedOf, hfalse]
  · simp [enrichedOf, hfalse]
  · simp [enrichedOf, hfalse]
  · simp [enrichedOf]
  · simp [costContrib, hfalse]
  · simp [valueContrib]
  · rw [calculate_portfolio_eq]
  · rw [calculate_portfolio_eq]

/-- Claim C10 witness inputs: purchase price exactly 0. -/
def c10asset : Asset :=
  { symbol := "ETH", coin_id := "ETHUSDT", amount := 2, purchase_price := some 0 }

def c10price : PriceData :=
  { price_usd := 100, change_24h := 1, volume_24h := 3, source := "binance", symbol := "ETHUSDT" }

/-- Claim C10 witness: a zero purchase price yields null cost/pnl fields while
the 200.00 current value flows into the totals. -/
theorem c10_zero_purchase_price_witness :
    ∃ r : EnrichedAsset,
      (calculate_portfolio [c10asset] [.ok c10price]).assets[0]? = some r
      ∧ r.cost = none ∧ r.pnl = none ∧ r.pnl_percent = none
      ∧ r.current_value = some (pyRound (c10asset.amount * c10price.price_usd) 2)
      ∧ costContrib (c10asset, .ok c10price) = 0
      ∧ valueContrib (c10asset, .ok c10price) = c10asset.amount * c10price.price_usd
      ∧ (calculate_portfolio [c10asset] [.ok c10price]).total_cost
          = pyRound (([(c10asset, Except.ok c10price)]).map costContrib).sum 2
      ∧ (calculate_portfolio [c10asset] [.ok c10price]).total_value_usd
          = pyRound (([(c10asset, Except.ok c10price)]).map valueContrib).sum 2 :=
  c10_zero_purchase_price [c10asset] [.ok c10price] 0 c10asset c10price (by decide) (by decide)


/-! ### Claims C1, C3 (cache TTL and retry behaviour) -/

/-- Sample parsed ticker body used by concrete cache/retry scenarios. -/
def sampleTicker : Ticker := { lastPrice := 30000, priceChangePercent := 2, quoteVolume := 5 }

/-- The `PriceData` `get_binance_price` builds from `sampleTicker`. -/
def samplePriceData : PriceData :=
  { price_usd := 30000, change_24h := 2, volume_24h := 5, source := "binance", symbol := "BTCUSDT" }

/-- Claim C1 fails on the code (code bug): the freshness check uses
`timedelta.seconds` — the elapsed time modulo 86400 — instead of the total
elapsed time.  First conjunct: the symbol cache (TTL 86400 s) never treats a
present entry as expired, whatever its age.  Remaining conjuncts: a price
cache entry written at t=0 is served as a hit at t=86430 (age 1 day 30 s,
TTL 60 s) with zero upstream requests. -/
theorem c1_cache_ttl_code_bug :
    (∀ (now ts : Int) (payload : SymbolsPayload) (resp : Option (List SymbolInfo)),
      get_binance_symbols (some (payload, ts)) now resp = (.ok payload, some (payload, ts), 0))
    ∧ (get_binance_price emptyCache 0 [(200, some sampleTicker)] "BTCUSDT").2.2 = 1
    ∧ (get_binance_price
        (get_binance_price emptyCache 0 [(200, some sampleTicker)] "BTCUSDT").2.1
        86430 [] "BTCUSDT").1 = some samplePriceData
    ∧ (get_binance_price
        (get_binance_price emptyCache 0 [(200, some sampleTicker)] "BTCUSDT").2.1
        86430 [] "BTCUSDT").2.2 = 0
    ∧ PRICE_CACHE_DURATION ≤ (86430 : Int) - 0 := by
  refine ⟨?_, by decide, by decide, by decide, by decide⟩
  intro now ts payload resp
  have h : tdSeconds now ts < SYMBOL_CACHE_DURATION := by
    have := Int.emod_lt_of_pos (now - ts) (by decide : (0:Int) < 86400)
    simpa [tdSeconds, SYMBOL_CACHE_DURATION] using this
  simp [get_binance_symbols, h]

/-- Claim C3 is false on the code: on a 429 the fetch is not retried.  With a
response stream whose first answer is a 429 and whose second answer would be a
successful 200, `get_binance_price` returns `None` after exactly one upstream
request — while the claimed 3-attempt retry would have succeeded, as the same
call started one response later shows. -/
theorem c3_no_retry_counterexample :
    (get_binance_price emptyCache 0 [(429, none), (200, some sampleTicker)] "BTCUSDT").1 = none
    ∧ (get_binance_price emptyCache 0 [(429, none), (200, some sampleTicker)] "BTCUSDT").2.2 = 1
    ∧ (get_binance_price emptyCache 0 [(200, some sampleTicker)] "BTCUSDT").1
        = some samplePriceData := by
  refine ⟨by decide, by decide, by decide⟩

/-- Claim C3 as amended: on a cache miss each price fetcher issues exactly one
upstream request and treats every non-200 status — 429 included — identically,
failing immediately with no result (`None`); there is no retry, no backoff
loop, and no `RateLimited`/`UpstreamError` distinction. -/
theorem c3_no_retry_amended (cache : CacheMap) (now : Int) (status : Int)
    (body : Option Ticker) (rest : List (Int × Option Ticker)) (symbol : String)
    (hmiss : cache ("binance_price_" ++ pyUpper symbol) = none)
    (hstatus : status ≠ 200)
    (gcache : CacheMap) (gnow : Int) (gstatus : Int) (gbody : Option GeckoCoin)
    (grest : List (Int × Option GeckoCoin)) (coin_id : String)
    (hgmiss : gcache ("gecko_price_" ++ coin_id) = none)
    (hgstatus : gstatus ≠ 200) :
    (get_binance_price cache now ((status, body) :: rest) symbol).1 = none
    ∧ (get_binance_price cache now ((status, body) :: rest) symbol).2.2 = 1
    ∧ (get_coingecko_price gcache gnow ((gstatus, gbody) :: grest) coin_id).1 = none
    ∧ (get_coingecko_price gcache gnow ((gstatus, gbody) :: grest) coin_id).2.2 = 1 := by
  have hb : (status != 200) = true := by simpa using hstatus
  have hgb : (gstatus != 200) = true := by simpa using hgstatus
  refine ⟨?_, ?_, ?_, ?_⟩ <;>
    simp [get_binance_price, get_coingecko_price, hmiss, hgmiss, hb, hgb]

/-- Claim C3 amended witness: a 429 answer on an empty cache yields no result
after one request, on both providers. -/
theorem c3_no_retry_amended_witness :
    (get_binance_price emptyCache 0 [(429, none)] "BTCUSDT").1 = none
    ∧ (get_binance_price emptyCache 0 [(429, none)] "BTCUSDT").2.2 = 1
    ∧ (get_coingecko_price emptyCache 0 [(429, none)] "dogecoin").1 = none
    ∧ (get_coingecko_price emptyCache 0 [(429, none)] "dogecoin").2.2 = 1 :=
  c3_no_retry_amended emptyCache 0 429 none [] "BTCUSDT" rfl (by decide)
    emptyCache 0 429 none [] "dogecoin" rfl (by decide)


/-! ### Claims C9, C5 (provider classification and failover) -/

/-- Claim C9: provider selection is the pure, deterministic string
classification `is_binance_symbol`: the Primary (Binance) adapter is invoked
iff the uppercased identifier ends in `USDT` or `BUSD`, and an identifier not
so classified goes directly to the Fallback (CoinGecko) adapter; the routing
is independent of cache state, time and upstream behaviour. -/
theorem c9_provider_classification (cache : CacheMap) (now : Int)
    (brs : List (Int × Option Ticker)) (grs : List (Int × Option GeckoCoin))
    (coin_id : String) :
    (get_crypto_price_smart cache now brs grs coin_id).2.2.1 = is_binance_symbol coin_id
    ∧ ((get_crypto_price_smart cache now brs grs coin_id).2.2.1
        || (get_crypto_price_smart cache now brs grs coin_id).2.2.2) = true
    ∧ (is_binance_symbol coin_id = false →
        (get_crypto_price_smart cache now brs grs coin_id).2.2.2 = true)
    ∧ is_binance_symbol coin_id
        = (pyEndsWith (pyUpper coin_id) "USDT" || pyEndsWith (pyUpper coin_id) "BUSD") := by
  refine ⟨?_, ?_, ?_, rfl⟩ <;>
    · unfold get_crypto_price_smart
      (repeat' split) <;> simp_all

/-- Claim C9 witness: "btcusdt" is routed to Binance, "dogecoin" is not and
goes straight to CoinGecko. -/
theorem c9_provider_classification_witness :
    (get_crypto_price_smart emptyCache 0 [] [] "btcusdt").2.2.1 = is_binance_symbol "btcusdt"
    ∧ is_binance_symbol "btcusdt" = true
    ∧ (is_binance_symbol "dogecoin" = false →
        (get_crypto_price_smart emptyCache 0 [] [] "dogecoin").2.2.2 = true)
    ∧ is_binance_symbol "dogecoin" = false := by
  refine ⟨(c9_provider_classification emptyCache 0 [] [] "btcusdt").1, by decide,
    (c9_provider_classification emptyCache 0 [] [] "dogecoin").2.2.1, by decide⟩

/-- Claim C5: (a) for a Primary-classified identifier whose Binance fetch
fails, the CoinGecko fallback is attempted, and if it also fails the resolver
fails with the 404 "could not fetch price" error (PriceUnavailable); (b) in a
valuation batch, a holding whose resolution failed becomes a record flagged
with the error and null price/value fields — `calculate_portfolio` still
returns a summary, so no exception escapes the batch. -/
theorem c5_failover_and_containment :
    (∀ (cache : CacheMap) (now : Int) (brs : List (Int × Option Ticker))
       (grs : List (Int × Option GeckoCoin)) (coin_id : String),
      is_binance_symbol coin_id = true →
      (get_binance_price cache now brs (pyUpper coin_id)).1 = none →
      (get_crypto_price_smart cache now brs grs coin_id).2.2.2 = true
      ∧ ((get_coingecko_price (get_binance_price cache now brs (pyUpper coin_id)).2.1
            now grs coin_id).1 = none →
          (get_crypto_price_smart cache now brs grs coin_id).1
            = .error (404, priceUnavailableMsg coin_id)))
    ∧ (∀ (assets : List Asset) (prs : List (Except (Int × String) PriceData))
         (i : Nat) (asset : Asset) (e : Int × String),
        (assets.zip prs)[i]? = some (asset, .error e) →
        (calculate_portfolio assets prs).assets[i]? = some (enrichedOf (asset, .error e))
        ∧ (enrichedOf (asset, .error e)).error = some ("Price unavailable: " ++ e.2)
        ∧ (enrichedOf (asset, .error e)).current_price = none
        ∧ (enrichedOf (asset, .error e)).current_value = none) := by
  constructor
  · intro cache now brs grs coin_id hcls hfail
    unfold get_crypto_price_smart
    constructor
    · (repeat' split) <;> simp_all
    · intro hgfail
      (repeat' split) <;> simp_all
  · intro assets prs i asset e hi
    refine ⟨?_, by simp [enrichedOf], by simp [enrichedOf], by simp [enrichedOf]⟩
    rw [calculate_portfolio_eq]
    simp [List.getElem?_map, hi]

/-- Claim C5 witness: "XBTUSDT" is Binance-classified; with both upstreams
answering 500 the resolver yields the 404 error, and a batch containing that
failure returns a flagged record. -/
theorem c5_failover_and_containment_witness :
    ((get_crypto_price_smart emptyCache 0 [(500, none)] [(500, none)] "XBTUSDT").2.2.2 = true
      ∧ (get_crypto_price_smart emptyCache 0 [(500, none)] [(500, none)] "XBTUSDT").1
          = .error (404, priceUnavailableMsg "XBTUSDT"))
    ∧ ((calculate_portfolio [c2assetA] [.error (404, priceUnavailableMsg "XBTUSDT")]).assets[0]?
        = some (enrichedOf (c2assetA, .error (404, priceUnavailableMsg "XBTUSDT")))
      ∧ (enrichedOf (c2assetA, Except.error (404, priceUnavailableMsg "XBTUSDT"))).current_value
          = none) := by
  obtain ⟨h1, h2⟩ := c5_failover_and_containment
  obtain ⟨ha, hb⟩ := h1 emptyCache 0 [(500, none)] [(500, none)] "XBTUSDT" (by decide) (by decide)
  obtain ⟨hc, _, _, he⟩ := h2 [c2assetA] [.error (404, priceUnavailableMsg "XBTUSDT")] 0 c2assetA
    (404, priceUnavailableMsg "XBTUSDT") (by decide)
  exact ⟨⟨ha, hb (by decide)⟩, hc, he⟩


/-! ### History lemmas: the forward-fill pointer -/

/-- Advancing the pointer in two stages with increasing bounds is the same as
advancing once with the final bound. -/
theorem advance_comp (b1 b2 : Int) (h : b1 ≤ b2) :
    ∀ (ps : List PricePt) (l0 : Option ℚ),
      advance b2 (advance b1 ps l0).2 (advance b1 ps l0).1 = advance b2 ps l0 := by
  intro ps
  induction ps with
  | nil => intro l0; simp [advance]
  | cons q rest ih =>
    intro l0
    obtain ⟨t, p⟩ := q
    by_cases h1 : t ≤ b1
    · have h2 : t ≤ b2 := le_trans h1 h
      simp [advance, h1, h2, ih]
    · simp [advance, h1]

/-- On a timestamp-sorted list, the latest price remembered by `advance` is
the last price point at or before the bound (or the incoming latest when no
point qualifies). -/
theorem advance_latest (ts : Int) :
    ∀ (ps : List PricePt), ps.Pairwise ptLe →
      ∀ (l0 : Option ℚ),
        (advance ts ps l0).1 =
          match (ps.filter (fun q => decide (q.1 ≤ ts))).getLast? with
          | some q => some q.2
          | none => l0 := by
  intro ps
  induction ps with
  | nil => intro _ l0; simp [advance]
  | cons q rest ih =>
    intro hp l0
    rw [List.pairwise_cons] at hp
    obtain ⟨t, p⟩ := q
    by_cases h1 : t ≤ ts
    · rw [List.filter_cons_of_pos (by simpa using h1)]
      have hre := ih hp.2 (some p)
      have hl : advance ts ((t, p) :: rest) l0 = advance ts rest (some p) := by
        simp [advance, h1]
      rw [hl, hre]
      cases hfl : (rest.filter (fun q => decide (q.1 ≤ ts))).getLast? with
      | none =>
        have hnil : rest.filter (fun q => decide (q.1 ≤ ts)) = [] := by
          simpa using hfl
        rw [List.getLast?_cons, hfl]
        simp
      | some q2 =>
        rw [List.getLast?_cons, hfl]
        simp
    · rw [List.filter_cons_of_neg (by simpa using h1)]
      have hrest : rest.filter (fun q => decide (q.1 ≤ ts)) = [] := by
        apply List.filter_eq_nil_iff.mpr
        intro q hq
        have ht := hp.1 q hq
        simp only [decide_eq_true_eq]
        intro hle
        exact h1 (le_trans ht hle)
      have hl : advance ts ((t, p) :: rest) l0 = (l0, (t, p) :: rest) := by
        simp [advance, h1]
      rw [hl, hrest]
      simp


/-- One asset's slot update as performed by the inner loop at one timestamp:
untouched before the ownership start, pointer-advanced otherwise. -/
def stepSlot (purchase : String → Int) (ts : Int) (k : String) (s : Slot) : Slot :=
  if ts < purchase k then s else advance ts s.2 s.1

/-- One asset's contribution to the timestamp total, as computed by the inner
loop from its slot. -/
def contribOf (purchase : String → Int) (ts : Int) (a : AssetHist) (s : Slot) : ℚ :=
  if ts < purchase a.coin_id then 0
  else
    match (advance ts s.2 s.1).1 with
    | some p => p * a.amount
    | none => 0

/-- Canonical slot shapes reached by the loop: the initial slot, or the slot
after an advance at some earlier timestamp. -/
def advO : Option Int → List PricePt → Slot
  | none, ps => (none, ps)
  | some b, ps => advance b ps none

theorem stepSlot_advO (purchase : String → Int) (ts : Int) (k : String) (ob : Option Int)
    (ps : List PricePt) (hb : ∀ b, ob = some b → b ≤ ts) :
    stepSlot purchase ts k (advO ob ps) =
      if ts < purchase k then advO ob ps else advO (some ts) ps := by
  unfold stepSlot
  by_cases hlt : ts < purchase k
  · simp [hlt]
  · rw [if_neg hlt, if_neg hlt]
    cases ob with
    | none => rfl
    | some b => exact advance_comp b ts (hb b rfl) ps none

theorem contribOf_advO (purchase : String → Int) (ts : Int) (a : AssetHist) (ob : Option Int)
    (ps : List PricePt) (hb : ∀ b, ob = some b → b ≤ ts) (hsort : ps.Pairwise ptLe) :
    contribOf purchase ts a (advO ob ps) =
      if ts < purchase a.coin_id then 0
      else
        match lastPriceAtOrBefore ts ps with
        | some p => p * a.amount
        | none => 0 := by
  unfold contribOf
  by_cases hlt : ts < purchase a.coin_id
  · simp [hlt]
  · rw [if_neg hlt, if_neg hlt]
    have hadv : (advance ts (advO ob ps).2 (advO ob ps).1).1 = (advance ts ps none).1 := by
      cases ob with
      | none => rfl
      | some b =>
        show (advance ts (advance b ps none).2 (advance b ps none).1).1 = (advance ts ps none).1
        rw [advance_comp b ts (hb b rfl) ps none]
    rw [hadv, advance_latest ts ps hsort none]
    unfold lastPriceAtOrBefore
    cases (ps.filter (fun q => decide (q.1 ≤ ts))).getLast? <;> simp


/-- The inner loop over `history_data` at one timestamp: with pairwise
distinct coin ids it advances every asset's slot once and sums the per-asset
contributions computed from the incoming state. -/
theorem innerFold_eq (purchase : String → Int) (ts : Int) :
    ∀ (hd : List AssetHist), (hd.map (fun a => a.coin_id)).Nodup →
      ∀ (st : PState) (t0 : ℚ),
        hd.foldl (histInnerStep purchase ts) (st, t0) =
          (fun k =>
            if k ∈ hd.map (fun a => a.coin_id) then stepSlot purchase ts k (st k) else st k,
           t0 + (hd.map (fun a => contribOf purchase ts a (st a.coin_id))).sum) := by
  intro hd
  induction hd with
  | nil =>
    intro _ st t0
    rw [List.foldl_nil, Prod.mk.injEq]
    constructor
    · funext k
      simp
    · simp
  | cons a t ih =>
    intro hnd st t0
    rw [List.map_cons, List.nodup_cons] at hnd
    obtain ⟨hna, hnt⟩ := hnd
    rw [List.foldl_cons]
    by_cases hlt : ts < purchase a.coin_id
    · have hstep : histInnerStep purchase ts (st, t0) a = (st, t0) := by
        simp [histInnerStep, hlt]
      rw [hstep, ih hnt st t0, Prod.mk.injEq]
      constructor
      · funext k
        by_cases hk : k = a.coin_id
        · rw [hk]
          have hkt : ¬a.coin_id ∈ t.map (fun a => a.coin_id) := hna
          simp [hkt, stepSlot, hlt]
        · simp [List.mem_cons, hk]
      · rw [List.map_cons, List.sum_cons]
        have hc : contribOf purchase ts a (st a.coin_id) = 0 := by
          simp [contribOf, hlt]
        rw [hc, zero_add]
    · have hstep : histInnerStep purchase ts (st, t0) a =
          (slotUpd st a.coin_id (advance ts (st a.coin_id).2 (st a.coin_id).1),
           t0 + contribOf purchase ts a (st a.coin_id)) := by
        unfold histInnerStep contribOf
        rw [if_neg hlt, if_neg hlt]
        cases hadv : (advance ts (st a.coin_id).2 (st a.coin_id).1).1 with
        | none => simp [hadv]
        | some p => simp [hadv]
      rw [hstep, ih hnt, Prod.mk.injEq]
      constructor
      · funext k
        by_cases hk : k = a.coin_id
        · rw [hk]
          have hkt : ¬a.coin_id ∈ t.map (fun a => a.coin_id) := hna
          have hmem : a.coin_id ∈ a.coin_id :: t.map (fun a => a.coin_id) :=
            List.mem_cons_self _ _
          rw [if_neg hkt, List.map_cons, if_pos hmem]
          simp [slotUpd, stepSlot, hlt]
        · have hbeq : (k == a.coin_id) = false := by
            simpa using hk
          by_cases hkt : k ∈ t.map (fun a => a.coin_id)
          · have hmem : k ∈ a.coin_id :: t.map (fun a => a.coin_id) :=
              List.mem_cons_of_mem _ hkt
            rw [if_pos hkt, List.map_cons, if_pos hmem]
            simp [slotUpd, hbeq]
          · have hmem : ¬k ∈ a.coin_id :: t.map (fun a => a.coin_id) := by
              simp [hk, hkt]
            rw [if_neg hkt, List.map_cons, if_neg hmem]
            simp [slotUpd, hbeq]
      · rw [List.map_cons, List.sum_cons]
        have hmap : t.map (fun b => contribOf purchase ts b
              ((slotUpd st a.coin_id (advance ts (st a.coin_id).2 (st a.coin_id).1)) b.coin_id))
            = t.map (fun b => contribOf purchase ts b (st b.coin_id)) := by
          apply List.map_congr_left
          intro b hb
          have hne2 : (b.coin_id == a.coin_id) = false := by
            have hmem : b.coin_id ∈ t.map (fun a => a.coin_id) := List.mem_map_of_mem _ hb
            have hne3 : b.coin_id ≠ a.coin_id := by
              intro he; exact hna (he ▸ hmem)
            simpa using hne3
          simp [slotUpd, hne2]
        rw [hmap, add_assoc]


/-- Spec-side: the timestamp-sorted price list the loop state holds for a
given coin id (the first — under `Nodup`, the only — matching entry). -/
def sortedPricesOf (hd : List AssetHist) (k : String) : List PricePt :=
  match hd.find? (fun a => a.coin_id == k) with
  | some a => List.insertionSort ptLe a.prices
  | none => []

/-- A fold of keyed dict writes, looked up at a key: with pairwise distinct
keys it yields the (unique) matching entry's value. -/
theorem updFold_lookup (v : AssetHist → Slot) :
    ∀ (hd : List AssetHist), (hd.map (fun a => a.coin_id)).Nodup →
      ∀ (st : PState) (k : String),
        (hd.foldl (fun st a => slotUpd st a.coin_id (v a)) st) k =
          match hd.find? (fun a => a.coin_id == k) with
          | some a => v a
          | none => st k := by
  intro hd
  induction hd with
  | nil => intro _ st k; simp [List.find?]
  | cons a t ih =>
    intro hnd st k
    rw [List.map_cons, List.nodup_cons] at hnd
    rw [List.foldl_cons, ih hnd.2]
    by_cases hk : a.coin_id = k
    · rw [List.find?_cons_of_pos _ (by simpa using hk)]
      have hnone : t.find? (fun b => b.coin_id == k) = none := by
        apply List.find?_eq_none.mpr
        intro b hb
        simp only [beq_iff_eq]
        intro hbk
        exact hnd.1 (by rw [hk, ← hbk]; exact List.mem_map_of_mem _ hb)
      rw [hnone]
      simp [slotUpd, hk]
    · rw [List.find?_cons_of_neg _ (by simpa using hk)]
      cases hfind : t.find? (fun b => b.coin_id == k) with
      | some b => rfl
      | none =>
        have hbeq : (k == a.coin_id) = false := by
          simp only [beq_eq_false_iff_ne, ne_eq]
          intro he; exact hk he.symm
        simp [slotUpd, hbeq]

/-- Initial loop state: every key holds no latest price and the sorted price
list of its entry. -/
theorem initPState_eq (hd : List AssetHist)
    (hnd : (hd.map (fun a => a.coin_id)).Nodup) (k : String) :
    initPState hd k = (none, sortedPricesOf hd k) := by
  unfold initPState sortedPricesOf
  rw [updFold_lookup (fun a => (none, List.insertionSort ptLe a.prices)) hd hnd]
  cases hd.find? (fun a => a.coin_id == k) <;> rfl

/-- With pairwise distinct coin ids, looking up a member's coin id finds that
member. -/
theorem find?_coin_id_eq (a : AssetHist) :
    ∀ (hd : List AssetHist), (hd.map (fun b => b.coin_id)).Nodup → a ∈ hd →
      hd.find? (fun b => b.coin_id == a.coin_id) = some a := by
  intro hd
  induction hd with
  | nil => intro _ h; cases h
  | cons x t ih =>
    intro hnd hmem
    rw [List.map_cons, List.nodup_cons] at hnd
    rcases List.mem_cons.mp hmem with hax | hat
    · rw [← hax]
      exact List.find?_cons_of_pos _ (by simp)
    · have hx : x.coin_id ≠ a.coin_id := by
        intro he
        exact hnd.1 (he ▸ List.mem_map_of_mem _ hat)
      rw [List.find?_cons_of_neg _ (by simpa using hx)]
      exact ih hnd.2 hat


/-- Invariant carried across the outer loop: every asset's slot is either the
initial slot or the result of advancing at some timestamp no later than every
remaining timeline timestamp. -/
def slotInv (hd : List AssetHist) (tl : List Int) (st : PState) : Prop :=
  ∀ a ∈ hd, ∃ ob : Option Int,
    st a.coin_id = advO ob (List.insertionSort ptLe a.prices)
    ∧ ∀ b, ob = some b → ∀ ts ∈ tl, b ≤ ts

/-- The outer loop over an ascending timeline produces exactly the spec-side
forward-filled history points. -/
theorem outerFold_eq (purchase : String → Int) (hd : List AssetHist)
    (hnd : (hd.map (fun a => a.coin_id)).Nodup) :
    ∀ (tl : List Int), tl.Pairwise (fun x y : Int => x ≤ y) →
      ∀ (st : PState) (acc : List (Int × ℚ)), slotInv hd tl st →
        (tl.foldl (histOuterStep purchase hd) (st, acc)).2 =
          acc ++ tl.filterMap (specPoint purchase hd) := by
  intro tl
  induction tl with
  | nil => intro _ st acc _; simp
  | cons ts r ih =>
    intro hp st acc hinv
    rw [List.pairwise_cons] at hp
    rw [List.foldl_cons]
    have hsum : (hd.map (fun a => contribOf purchase ts a (st a.coin_id))).sum
        = (hd.map (ffContrib purchase ts)).sum := by
      apply congrArg List.sum
      apply List.map_congr_left
      intro a ha
      obtain ⟨ob, hslot, hb⟩ := hinv a ha
      rw [hslot, contribOf_advO purchase ts a ob _
        (fun b hob => hb b hob ts (List.mem_cons_self _ _))
        (List.sorted_insertionSort ptLe a.prices)]
      unfold ffContrib ffValue
      rfl
    have hstep : histOuterStep purchase hd (st, acc) ts =
        ((fun k =>
            if k ∈ hd.map (fun a => a.coin_id) then stepSlot purchase ts k (st k) else st k),
         acc ++ (specPoint purchase hd ts).toList) := by
      unfold histOuterStep
      rw [innerFold_eq purchase ts hd hnd st 0, zero_add, hsum]
      unfold specPoint
      by_cases hth : (hd.map (ffContrib purchase ts)).sum > mkRat 1 100
      · rw [if_pos hth, if_pos hth]
        rfl
      · rw [if_neg hth, if_neg hth]
        simp
    rw [hstep]
    have hinv2 : slotInv hd r (fun k =>
        if k ∈ hd.map (fun a => a.coin_id) then stepSlot purchase ts k (st k) else st k) := by
      intro a ha
      obtain ⟨ob, hslot, hb⟩ := hinv a ha
      have hmem : a.coin_id ∈ hd.map (fun a => a.coin_id) := List.mem_map_of_mem _ ha
      by_cases hlt : ts < purchase a.coin_id
      · refine ⟨ob, ?_, ?_⟩
        · simp only []
          rw [if_pos hmem, hslot, stepSlot_advO purchase ts a.coin_id ob _
            (fun b hob => hb b hob ts (List.mem_cons_self _ _)), if_pos hlt]
        · intro b hob ts2 hts2
          exact hb b hob ts2 (List.mem_cons_of_mem _ hts2)
      · refine ⟨some ts, ?_, ?_⟩
        · simp only []
          rw [if_pos hmem, hslot, stepSlot_advO purchase ts a.coin_id ob _
            (fun b hob => hb b hob ts (List.mem_cons_self _ _)), if_neg hlt]
        · intro b hob ts2 hts2
          cases hob
          exact hp.1 ts2 hts2
    rw [ih hp.2 _ _ hinv2, List.filterMap_cons]
    cases specPoint purchase hd ts with
    | none => simp
    | some pt => simp


/-- A successful history fetch keeps the asset's identifier. -/
theorem fetch_coin_id (bh gh : String → Int → Option (List PricePt)) (days : Int)
    (asset : Asset) (r : AssetHist)
    (h : fetch_coin_history_smart bh gh days asset = some r) : r.coin_id = asset.coin_id := by
  unfold fetch_coin_history_smart at h
  (repeat' split at h) <;> (cases h) <;> rfl

theorem historyDataOf_cons (bh gh : String → Int → Option (List PricePt)) (days : Int)
    (a : Asset) (t : List Asset) :
    historyDataOf bh gh days (a :: t) =
      (match fetch_coin_history_smart bh gh days a with
       | some r =>
         if r.prices.isEmpty then historyDataOf bh gh days t
         else r :: historyDataOf bh gh days t
       | none => historyDataOf bh gh days t) := by
  unfold historyDataOf historyResultsOf
  rw [List.map_cons]
  cases hf : fetch_coin_history_smart bh gh days a with
  | none => simp [List.filterMap_cons]
  | some r =>
    by_cases hp : r.prices.isEmpty <;> simp [List.filterMap_cons, List.filter_cons, hp]

theorem historyDataOf_cons_none (bh gh : String → Int → Option (List PricePt)) (days : Int)
    (a : Asset) (t : List Asset) (hf : fetch_coin_history_smart bh gh days a = none) :
    historyDataOf bh gh days (a :: t) = historyDataOf bh gh days t := by
  rw [historyDataOf_cons, hf]

theorem historyDataOf_cons_empty (bh gh : String → Int → Option (List PricePt)) (days : Int)
    (a : Asset) (t : List Asset) (r : AssetHist)
    (hf : fetch_coin_history_smart bh gh days a = some r) (hp : r.prices.isEmpty = true) :
    historyDataOf bh gh days (a :: t) = historyDataOf bh gh days t := by
  rw [historyDataOf_cons, hf]
  simp [hp]

theorem historyDataOf_cons_ok (bh gh : String → Int → Option (List PricePt)) (days : Int)
    (a : Asset) (t : List Asset) (r : AssetHist)
    (hf : fetch_coin_history_smart bh gh days a = some r) (hp : ¬r.prices.isEmpty = true) :
    historyDataOf bh gh days (a :: t) = r :: historyDataOf bh gh days t := by
  rw [historyDataOf_cons, hf]
  simp [hp]

/-- The successful holdings' identifiers form a sublist of the request's
identifiers. -/
theorem historyDataOf_ids_sublist (bh gh : String → Int → Option (List PricePt))
    (days : Int) :
    ∀ (assets : List Asset),
      ((historyDataOf bh gh days assets).map (fun a => a.coin_id)).Sublist
        (assets.map (fun a => a.coin_id)) := by
  intro assets
  induction assets with
  | nil => simp [historyDataOf, historyResultsOf]
  | cons a t ih =>
    rw [List.map_cons]
    cases hf : fetch_coin_history_smart bh gh days a with
    | none =>
      rw [historyDataOf_cons_none bh gh days a t hf]
      exact ih.cons _
    | some r =>
      by_cases hp : r.prices.isEmpty
      · rw [historyDataOf_cons_empty bh gh days a t r hf hp]
        exact ih.cons _
      · rw [historyDataOf_cons_ok bh gh days a t r hf hp, List.map_cons,
          fetch_coin_id bh gh days a r hf]
        exact ih.cons₂ _

/-- All history fetches fail (or give empty series) iff no holding survives
into `history_data`. -/
theorem historyDataOf_eq_nil_iff (bh gh : String → Int → Option (List PricePt))
    (days : Int) :
    ∀ (assets : List Asset),
      historyDataOf bh gh days assets = [] ↔
        ∀ a ∈ assets, histFetchOK bh gh days a = false := by
  intro assets
  induction assets with
  | nil => simp [historyDataOf, historyResultsOf]
  | cons a t ih =>
    cases hf : fetch_coin_history_smart bh gh days a with
    | none =>
      rw [historyDataOf_cons_none bh gh days a t hf]
      simp only [List.mem_cons]
      constructor
      · intro h b hb
        rcases hb with hb | hb
        · rw [hb]; simp [histFetchOK, hf]
        · exact (ih.mp h) b hb
      · intro h
        exact ih.mpr (fun b hb => h b (Or.inr hb))
    | some r =>
      by_cases hp : r.prices.isEmpty
      · rw [historyDataOf_cons_empty bh gh days a t r hf hp]
        simp only [List.mem_cons]
        constructor
        · intro h b hb
          rcases hb with hb | hb
          · rw [hb]; simp [histFetchOK, hf, hp]
          · exact (ih.mp h) b hb
        · intro h
          exact ih.mpr (fun b hb => h b (Or.inr hb))
      · rw [historyDataOf_cons_ok bh gh days a t r hf hp]
        simp only [List.mem_cons]
        constructor
        · intro h; cases h
        · intro h
          have := h a (Or.inl rfl)
          rw [histFetchOK, hf] at this
          simp [hp] at this

/-- The exclusion shape of `history_data`: exactly the holdings whose fetch
succeeded with a nonempty series, in order, mapped through their fetch
result. -/
theorem historyDataOf_eq_filter (bh gh : String → Int → Option (List PricePt))
    (days : Int) :
    ∀ (assets : List Asset),
      historyDataOf bh gh days assets =
        (assets.filter (histFetchOK bh gh days)).filterMap
          (fetch_coin_history_smart bh gh days) := by
  intro assets
  induction assets with
  | nil => simp [historyDataOf, historyResultsOf]
  | cons a t ih =>
    rw [List.filter_cons]
    cases hf : fetch_coin_history_smart bh gh days a with
    | none =>
      have hok : histFetchOK bh gh days a = false := by simp [histFetchOK, hf]
      rw [historyDataOf_cons_none bh gh days a t hf, hok]
      simpa using ih
    | some r =>
      by_cases hp : r.prices.isEmpty
      · have hok : histFetchOK bh gh days a = false := by simp [histFetchOK, hf, hp]
        rw [historyDataOf_cons_empty bh gh days a t r hf hp, hok]
        simpa using ih
      · have hok : histFetchOK bh gh days a = true := by simp [histFetchOK, hf, hp]
        rw [historyDataOf_cons_ok bh gh days a t r hf hp, hok]
        simp only [if_pos, List.filterMap_cons, hf]
        rw [ih]


/-- `zip` of a list with its own `map` is a `map` of pairs. -/
theorem zip_map_self {β : Type} (g : Asset → β) :
    ∀ (t : List Asset), t.zip (t.map g) = t.map (fun b => (b, g b)) := by
  intro t
  induction t with
  | nil => rfl
  | cons b u ih => rw [List.map_cons, List.zip_cons_cons, ih, List.map_cons]

/-- Purchase-time fold: pairs that never write a key leave it unchanged. -/
theorem purchaseFold_no_write :
    ∀ (z : List (Asset × Option AssetHist)) (m0 : String → Option Int) (k : String),
      (∀ p ∈ z, ∀ r, p.2 = some r → ¬r.prices.isEmpty = true → r.coin_id ≠ k) →
      (z.foldl purchaseStep m0) k = m0 k := by
  intro z
  induction z with
  | nil => intro m0 k _; rfl
  | cons p t ih =>
    intro m0 k hw
    rw [List.foldl_cons]
    rw [ih _ k (fun q hq => hw q (List.mem_cons_of_mem _ hq))]
    unfold purchaseStep
    cases hp2 : p.2 with
    | none => rfl
    | some r =>
      by_cases hp : r.prices.isEmpty
      · simp [hp]
      · have hne : r.coin_id ≠ k := hw p (List.mem_cons_self _ _) r hp2 hp
        have hbeq : (k == r.coin_id) = false := by
          simp only [beq_eq_false_iff_ne, ne_eq]
          intro he; exact hne he.symm
        simp [hp, intUpd, hbeq]

/-- Purchase-time fold lookup: with pairwise distinct coin ids, a holding
whose fetch succeeded maps to its purchase timestamp (or 0 when it has
none). -/
theorem purchaseFold_lookup (bh gh : String → Int → Option (List PricePt)) (days : Int) :
    ∀ (assets : List Asset), (assets.map (fun a => a.coin_id)).Nodup →
      ∀ a ∈ assets, histFetchOK bh gh days a = true →
        ∀ (m0 : String → Option Int),
          ((assets.zip (historyResultsOf bh gh days assets)).foldl purchaseStep m0) a.coin_id
            = some (match a.purchase_date with | some d => d | none => 0) := by
  intro assets
  induction assets with
  | nil => intro _ a ha; cases ha
  | cons x t ih =>
    intro hnd a ha hok m0
    rw [List.map_cons, List.nodup_cons] at hnd
    unfold historyResultsOf
    rw [List.map_cons, List.zip_cons_cons, List.foldl_cons]
    rcases List.mem_cons.mp ha with hax | hat
    · subst hax
      obtain ⟨r, hf, hp⟩ : ∃ r, fetch_coin_history_smart bh gh days a = some r
          ∧ ¬r.prices.isEmpty = true := by
        unfold histFetchOK at hok
        cases hf : fetch_coin_history_smart bh gh days a with
        | none => rw [hf] at hok; cases hok
        | some r =>
          rw [hf] at hok
          exact ⟨r, rfl, by simpa using hok⟩
      rw [purchaseFold_no_write]
      · unfold purchaseStep
        rw [hf]
        have hcid := fetch_coin_id bh gh days a r hf
        simp [hp, intUpd, hcid]
      · intro p hpmem r2 hr2 hne2
        rw [zip_map_self] at hpmem
        obtain ⟨b, hb, hpair⟩ := List.mem_map.mp hpmem
        have hp2 : p.2 = fetch_coin_history_smart bh gh days b := by rw [← hpair]
        rw [hp2] at hr2
        rw [fetch_coin_id bh gh days b r2 hr2]
        intro he
        exact hnd.1 (he ▸ List.mem_map_of_mem _ hb)
    · have hstep : ∀ m, ((t.zip (t.map (fetch_coin_history_smart bh gh days))).foldl
          purchaseStep m) a.coin_id
            = some (match a.purchase_date with | some d => d | none => 0) := by
        intro m
        have := ih hnd.2 a hat hok m
        unfold historyResultsOf at this
        exact this
      exact hstep _


/-- The ownership-start map: a successfully fetched holding's purchase time is
its purchase timestamp when present, else 0 (owned for the whole window). -/
theorem buildPurchaseTimes_lookup (bh gh : String → Int → Option (List PricePt))
    (days : Int) (assets : List Asset) (hnd : (assets.map (fun a => a.coin_id)).Nodup)
    (a : Asset) (ha : a ∈ assets) (hok : histFetchOK bh gh days a = true) :
    buildPurchaseTimes assets (historyResultsOf bh gh days assets) a.coin_id
      = (match a.purchase_date with | some d => d | none => 0) := by
  unfold buildPurchaseTimes
  rw [purchaseFold_lookup bh gh days assets hnd a ha hok]
  rfl

/-- Master characterization: on distinct identifiers, a nonempty request with
at least one successful fetch returns exactly the spec-side forward-filled,
purchase-date-aware history. -/
theorem get_portfolio_history_ok_eq (bh gh : String → Int → Option (List PricePt))
    (assets : List Asset) (days : Int)
    (hnd : (assets.map (fun a => a.coin_id)).Nodup)
    (hne : assets.isEmpty = false)
    (hdata : (historyDataOf bh gh days assets).isEmpty = false) :
    get_portfolio_history bh gh assets days =
      .ok (specHistoryPoints
             (buildPurchaseTimes assets (historyResultsOf bh gh days assets))
             (historyDataOf bh gh days assets))
          days
          ((historyDataOf bh gh days assets).map (fun a => a.source)).dedup
          (assetsWithoutDates assets (historyResultsOf bh gh days assets)) := by
  have hndhd : ((historyDataOf bh gh days assets).map (fun a => a.coin_id)).Nodup :=
    hnd.sublist (historyDataOf_ids_sublist bh gh days assets)
  have hts : (((historyDataOf bh gh days assets).map
      (fun a => a.prices.map (fun q => q.1))).flatten.dedup).isEmpty = false := by
    rw [List.isEmpty_eq_false] at hdata ⊢
    cases hd : historyDataOf bh gh days assets with
    | nil => rw [hd] at hdata; cases hdata rfl
    | cons x u =>
      have hxmem : x ∈ historyDataOf bh gh days assets := hd ▸ List.mem_cons_self _ _
      have hx : ¬x.prices.isEmpty = true := by
        unfold historyDataOf at hxmem
        have := List.of_mem_filter hxmem
        simpa using this
      intro hcon
      rw [List.dedup_eq_nil] at hcon
      have hall := List.flatten_eq_nil_iff.mp hcon
      have hxp : x.prices = [] := by
        have := hall (List.map (fun q => q.1) x.prices)
          (by rw [List.map_cons]; exact List.mem_cons_self _ _)
        exact List.map_eq_nil_iff.mp this
      rw [hxp] at hx
      simp at hx
  unfold get_portfolio_history
  rw [hne]
  simp only [Bool.false_eq_true, if_false, hdata, hts]
  have hfold := outerFold_eq
    (buildPurchaseTimes assets (historyResultsOf bh gh days assets))
    (historyDataOf bh gh days assets) hndhd
    (historyTimeline (historyDataOf bh gh days assets))
    (by
      have := List.sorted_insertionSort (fun a b : Int => a ≤ b)
        (((historyDataOf bh gh days assets).map
          (fun a => a.prices.map (fun q => q.1))).flatten.dedup)
      exact this)
    (initPState (historyDataOf bh gh days assets)) []
    (by
      intro a ha
      refine ⟨none, ?_, by intro b hb; cases hb⟩
      rw [initPState_eq _ hndhd]
      unfold sortedPricesOf
      rw [find?_coin_id_eq a _ hndhd ha]
      rfl)
  rw [List.nil_append] at hfold
  rw [hfold]
  rfl


/-- One successful fetch keeps `history_data` nonempty. -/
theorem historyDataOf_nonempty_of_ok (bh gh : String → Int → Option (List PricePt))
    (days : Int) (assets : List Asset) (a : Asset) (ha : a ∈ assets)
    (hok : histFetchOK bh gh days a = true) :
    (historyDataOf bh gh days assets).isEmpty = false := by
  rw [List.isEmpty_eq_false]
  intro hnil
  have := (historyDataOf_eq_nil_iff bh gh days assets).mp hnil a ha
  rw [hok] at this
  cases this

/-- `all_timestamps` is nonempty whenever `history_data` is (every surviving
holding has a nonempty series). -/
theorem history_all_ts_nonempty (bh gh : String → Int → Option (List PricePt))
    (days : Int) (assets : List Asset)
    (hdata : (historyDataOf bh gh days assets).isEmpty = false) :
    (((historyDataOf bh gh days assets).map
      (fun a => a.prices.map (fun q => q.1))).flatten.dedup).isEmpty = false := by
  rw [List.isEmpty_eq_false] at hdata ⊢
  cases hd : historyDataOf bh gh days assets with
  | nil => rw [hd] at hdata; cases hdata rfl
  | cons x u =>
    have hxmem : x ∈ historyDataOf bh gh days assets := hd ▸ List.mem_cons_self _ _
    have hx : ¬x.prices.isEmpty = true := by
      unfold historyDataOf at hxmem
      have := List.of_mem_filter hxmem
      simpa using this
    intro hcon
    rw [List.dedup_eq_nil] at hcon
    have hall := List.flatten_eq_nil_iff.mp hcon
    have hxp : x.prices = [] := by
      have := hall (List.map (fun q => q.1) x.prices)
        (by rw [List.map_cons]; exact List.mem_cons_self _ _)
      exact List.map_eq_nil_iff.mp this
    rw [hxp] at hx
    simp at hx

/-! ### Claims C4, C6, C7 (historical reconstruction) -/

/-- Claim C4: in a nonempty history request, holdings whose fetch failed (or
returned an empty series) are excluded from the reconstruction without
failing the call — the call returns the `ok` shape as soon as one holding
succeeds, `history_data` being exactly the successful holdings — and only
when every holding's fetch fails does the call return the distinguished
`NoHistoricalData` error shape. -/
theorem c4_history_partial_failure (bh gh : String → Int → Option (List PricePt))
    (assets : List Asset) (days : Int) (hne : assets.isEmpty = false) :
    ((∀ a ∈ assets, histFetchOK bh gh days a = false) →
        get_portfolio_history bh gh assets days = .noData days)
    ∧ ((∃ a ∈ assets, histFetchOK bh gh days a = true) →
        ∃ pts srcs w, get_portfolio_history bh gh assets days = .ok pts days srcs w)
    ∧ historyDataOf bh gh days assets
        = (assets.filter (histFetchOK bh gh days)).filterMap
            (fetch_coin_history_smart bh gh days) := by
  refine ⟨?_, ?_, historyDataOf_eq_filter bh gh days assets⟩
  · intro hall
    have hdnil : historyDataOf bh gh days assets = [] :=
      (historyDataOf_eq_nil_iff bh gh days assets).mpr hall
    unfold get_portfolio_history
    rw [hne]
    simp [hdnil]
  · rintro ⟨a, ha, hok⟩
    have hdata := historyDataOf_nonempty_of_ok bh gh days assets a ha hok
    have hts := history_all_ts_nonempty bh gh days assets hdata
    unfold get_portfolio_history
    rw [hne]
    simp only [Bool.false_eq_true, if_false, hdata, hts]
    exact ⟨_, _, _, rfl⟩

/-- Claim C4 witness inputs: "AAAUSDT" succeeds on Binance, "ZZZ" fails on
both providers. -/
def c4bh : String → Int → Option (List PricePt) :=
  fun s _ => if s == "AAAUSDT" then some [((0 : Int), (10 : ℚ))] else none

def c4gh : String → Int → Option (List PricePt) := fun _ _ => none

def c4ok : Asset := { symbol := "AAA", coin_id := "AAAUSDT", amount := 1 }

def c4bad : Asset := { symbol := "ZZZ", coin_id := "ZZZ", amount := 1 }

/-- Claim C4 witness: with one succeeding and one failing holding the call
returns the `ok` shape; with only the failing holding it returns `noData`. -/
theorem c4_history_partial_failure_witness :
    (∃ pts srcs w, get_portfolio_history c4bh c4gh [c4ok, c4bad] 7 = .ok pts 7 srcs w)
    ∧ get_portfolio_history c4bh c4gh [c4bad] 7 = .noData 7 := by
  constructor
  · exact (c4_history_partial_failure c4bh c4gh [c4ok, c4bad] 7 (by decide)).2.1
      ⟨c4ok, by decide, by decide⟩
  · exact (c4_history_partial_failure c4bh c4gh [c4bad] 7 (by decide)).1
      (by intro a ha; fin_cases ha; decide)

/-- Claim C6: with pairwise distinct identifiers, a nonempty request with at
least one successful fetch returns exactly the forward-filled reconstruction:
at every timeline timestamp each owned holding contributes `quantity × latest
known price at or before that timestamp` (zero before any observed price),
the per-timestamp totals are summed, rounded, and kept when above 0.01. -/
theorem c6_forward_fill (bh gh : String → Int → Option (List PricePt))
    (assets : List Asset) (days : Int)
    (hnd : (assets.map (fun a => a.coin_id)).Nodup)
    (hne : assets.isEmpty = false)
    (hsome : ∃ a ∈ assets, histFetchOK bh gh days a = true) :
    get_portfolio_history bh gh assets days =
      .ok (specHistoryPoints
             (buildPurchaseTimes assets (historyResultsOf bh gh days assets))
             (historyDataOf bh gh days assets))
          days
          ((historyDataOf bh gh days assets).map (fun a => a.source)).dedup
          (assetsWithoutDates assets (historyResultsOf bh gh days assets)) := by
  obtain ⟨a, ha, hok⟩ := hsome
  exact get_portfolio_history_ok_eq bh gh assets days hnd hne
    (historyDataOf_nonempty_of_ok bh gh days assets a ha hok)

/-- Claim C6 witness inputs: asset A with price points (0, 10) and (100, 20);
asset B, of quantity 0, adds t=50 to the timeline. -/
def c6bh : String → Int → Option (List PricePt) :=
  fun s _ =>
    if s == "BTCUSDT" then some [((0 : Int), (10 : ℚ)), (100, 20)]
    else if s == "ETHUSDT" then some [((50 : Int), (7 : ℚ))] else none

def c6gh : String → Int → Option (List PricePt) := fun _ _ => none

def c6A : Asset := { symbol := "BTC", coin_id := "BTCUSDT", amount := 1 }

def c6B : Asset := { symbol := "ETH", coin_id := "ETHUSDT", amount := 0 }

/-- Claim C6 witness: the timeline contains t=50 and the reconstructed value
there is 10 — asset A's price 10 forward-filled from t=0, not an
interpolation towards 20. -/
theorem c6_forward_fill_witness :
    get_portfolio_history c6bh c6gh [c6A, c6B] 7
      = .ok [((0 : Int), (10 : ℚ)), (50, 10), (100, 20)] 7 ["binance"] ["BTC", "ETH"] := by
  have h := c6_forward_fill c6bh c6gh [c6A, c6B] 7 (by decide) (by decide)
    ⟨c6A, by decide, by decide⟩
  rw [h]
  decide


/-- Holdings not yet owned at a timestamp contribute exactly zero: the
contribution sum equals the sum over only the owned holdings. -/
theorem ffContrib_sum_filter (purchase : String → Int) (ts : Int) :
    ∀ (hd : List AssetHist),
      (hd.map (ffContrib purchase ts)).sum
        = ((hd.filter (fun a => decide (purchase a.coin_id ≤ ts))).map (ffValue ts)).sum := by
  intro hd
  induction hd with
  | nil => rfl
  | cons a t ih =>
    rw [List.map_cons, List.sum_cons, List.filter_cons]
    by_cases h : purchase a.coin_id ≤ ts
    · rw [if_pos (by simpa using h), List.map_cons, List.sum_cons, ih]
      congr 1
      unfold ffContrib
      rw [if_neg (not_lt.mpr h)]
    · rw [if_neg (by simpa using h), ih]
      have hzero : ffContrib purchase ts a = 0 := by
        unfold ffContrib
        rw [if_pos (lt_of_not_le h)]
      rw [hzero, zero_add]

/-- Claim C7: every emitted history point's value is the rounded sum over
only the holdings already owned at that timestamp — a holding contributes
zero at every timeline timestamp strictly before its ownership start, even
when price data exists earlier — and the ownership start is the holding's
purchase timestamp when present, else 0 (the whole window counts as
owned). -/
theorem c7_purchase_cutoff (bh gh : String → Int → Option (List PricePt))
    (assets : List Asset) (days : Int)
    (hnd : (assets.map (fun a => a.coin_id)).Nodup)
    (hne : assets.isEmpty = false)
    (hsome : ∃ a ∈ assets, histFetchOK bh gh days a = true) :
    (∀ pts ds srcs w, get_portfolio_history bh gh assets days = .ok pts ds srcs w →
      ∀ pt ∈ pts,
        pt.2 = pyRound
          ((((historyDataOf bh gh days assets).filter
              (fun a => decide (buildPurchaseTimes assets
                (historyResultsOf bh gh days assets) a.coin_id ≤ pt.1))).map
            (ffValue pt.1)).sum) 2)
    ∧ (∀ a ∈ assets, histFetchOK bh gh days a = true →
        buildPurchaseTimes assets (historyResultsOf bh gh days assets) a.coin_id
          = (match a.purchase_date with | some d => d | none => 0)) := by
  obtain ⟨a0, ha0, hok0⟩ := hsome
  have hdata := historyDataOf_nonempty_of_ok bh gh days assets a0 ha0 hok0
  constructor
  · intro pts ds srcs w hcall pt hpt
    rw [get_portfolio_history_ok_eq bh gh assets days hnd hne hdata] at hcall
    cases hcall
    unfold specHistoryPoints at hpt
    obtain ⟨ts, htl, hsp⟩ := List.mem_filterMap.mp hpt
    unfold specPoint at hsp
    by_cases hth : ((historyDataOf bh gh days assets).map
        (ffContrib (buildPurchaseTimes assets (historyResultsOf bh gh days assets)) ts)).sum
        > mkRat 1 100
    · rw [if_pos hth] at hsp
      cases hsp
      rw [ffContrib_sum_filter]
    · rw [if_neg hth] at hsp
      cases hsp
  · intro a ha hok
    exact buildPurchaseTimes_lookup bh gh days assets hnd a ha hok

/-- Claim C7 witness inputs: asset A owned for the whole window, asset B
purchased at t=60 with price data from t=0 on. -/
def c7bh : String → Int → Option (List PricePt) :=
  fun s _ =>
    if s == "BTCUSDT" then some [((0 : Int), (10 : ℚ)), (100, 20)]
    else if s == "ETHUSDT" then some [((0 : Int), (100 : ℚ)), (50, 100), (100, 100)]
    else none

def c7gh : String → Int → Option (List PricePt) := fun _ _ => none

def c7A : Asset := { symbol := "BTC", coin_id := "BTCUSDT", amount := 1 }

def c7B : Asset :=
  { symbol := "ETH", coin_id := "ETHUSDT", amount := 5, purchase_date := some 60 }

/-- Claim C7 witness: asset B (purchased at t=60, quantity 5, price 100)
contributes nothing at t=0 and t=50 — both values stay 10, asset A's
forward-filled value — and only at t=100 does the total become 520; the
filtered sums of the claim theorem evaluate accordingly, and the ownership
starts are 60 for the dated asset and 0 for the undated one. -/
theorem c7_purchase_cutoff_witness :
    (∀ pts ds srcs w, get_portfolio_history c7bh c7gh [c7A, c7B] 7 = .ok pts ds srcs w →
      ∀ pt ∈ pts,
        pt.2 = pyRound
          ((((historyDataOf c7bh c7gh 7 [c7A, c7B]).filter
              (fun a => decide (buildPurchaseTimes [c7A, c7B]
                (historyResultsOf c7bh c7gh 7 [c7A, c7B]) a.coin_id ≤ pt.1))).map
            (ffValue pt.1)).sum) 2)
    ∧ get_portfolio_history c7bh c7gh [c7A, c7B] 7
        = .ok [((0 : Int), (10 : ℚ)), (50, 10), (100, 520)] 7 ["binance"] ["BTC"]
    ∧ buildPurchaseTimes [c7A, c7B] (historyResultsOf c7bh c7gh 7 [c7A, c7B]) "ETHUSDT" = 60
    ∧ buildPurchaseTimes [c7A, c7B] (historyResultsOf c7bh c7gh 7 [c7A, c7B]) "BTCUSDT" = 0 := by
  obtain ⟨h1, h2⟩ := c7_purchase_cutoff c7bh c7gh [c7A, c7B] 7 (by decide) (by decide)
    ⟨c7A, by decide, by decide⟩
  refine ⟨h1, by decide, ?_, ?_⟩
  · exact h2 c7B (by decide) (by decide)
  · exact h2 c7A (by decide) (by decide)
